import Mathlib

/-!
Verification of the `pipage` stream-pipeline library (src/lib/pipeline.js).

The library composes an ordered, mutable list of Node duplex streams into a
single composite duplex stream.  We shallowly embed the parts of the code the
claims are about:

* `PState` models the composite's observable wiring state: the ordered stage
  list (`_streams`), the `readable`/`end` listeners installed by
  `_afterMutate`, the shared `error` handler installed by `splice`, the active
  `pipe` edges, and the per-stage `_pipageListeners` registry entries together
  with their forwarding listeners.  Stages are identified by their object
  identity, modelled as natural numbers.  Listener registration follows
  EventEmitter semantics: `on` appends one listener, `removeListener` removes
  one matching listener, so each listener collection is a list with
  multiplicity.
* `splice`, `append`, `prepend`, `insert`, `remove`, `shift`, `pop` are the
  mutation operations translated line by line, including the exact semantics
  of `Array.prototype.splice` (`jsSplice`) and `Array.prototype.indexOf`
  (`jsIndexOf`).
* `StageEvt`, `bind`, `unbind`, `unbindAll` model the per-stage event
  rebinder (`_pipageListeners`), with forwarding handlers identified by the
  order of their creation.
* `pipelineWrite`, `readLoop`, `pipelineRead`, `finishHandler`,
  `endRegister`, `fireFinish` model the `_write`, `_read`, `'finish'` and
  `end` logic as functions from inputs to their observable effects.
-/

set_option maxHeartbeats 1000000

namespace Pipage

/-- Stage identity (JS object identity), modelled as a natural number. -/
abbrev Stage := Nat

/-- Observable wiring state of a `Pipeline` instance.

`streams` is `this._streams`; `readableBound` / `endBound` list the stages
carrying the flow controller's `_readHandler` / `_endHandler` (with
multiplicity, in registration order); `errorBound` lists the stages carrying
the shared `_errorHandler`; `pipes` lists the active `src.pipe(dst)` edges;
`registry` maps a stage to the event names bound in its `_pipageListeners`
object, and `fwdBound` lists the forwarding listeners attached to stages. -/
structure PState where
  streams : List Stage
  readableBound : List Stage
  endBound : List Stage
  errorBound : List Stage
  pipes : List (Stage × Stage)
  registry : List (Stage × List String)
  fwdBound : List (Stage × String)
deriving DecidableEq

/-- The adjacent pairs `(streams[i], streams[i+1])` of a stage list. -/
def adjPairs (l : List Stage) : List (Stage × Stage) := l.zip l.tail

/-- `EventEmitter#removeListener` / `unpipe`: remove one matching entry from a
listener list. -/
def eraseOne {α : Type} [DecidableEq α] (l : List α) (a : α) : List α := l.erase a

/-- `Pipeline#_beforeMutate`: drop the flow controller's `readable`/`end`
listeners from the current last stage and unpipe every adjacent pair. -/
def beforeMutate (st : PState) : PState :=
  let st1 :=
    match st.streams.getLast? with
    | none => st
    | some last =>
      { st with
        readableBound := eraseOne st.readableBound last
        endBound := eraseOne st.endBound last }
  { st1 with pipes := (adjPairs st1.streams).foldl (fun acc p => eraseOne acc p) st1.pipes }

/-- `Pipeline#_afterMutate`: install the flow controller's `readable`/`end`
listeners on the (new) last stage and pipe every adjacent pair. -/
def afterMutate (st : PState) : PState :=
  let st1 :=
    match st.streams.getLast? with
    | none => st
    | some last =>
      { st with
        readableBound := st.readableBound ++ [last]
        endBound := st.endBound ++ [last] }
  { st1 with pipes := st1.pipes ++ adjPairs st1.streams }

/-- `Pipeline#unbindAll` as invoked by `splice` on a removed stage: if the
stage has a `_pipageListeners` object, remove each forwarding listener it
records and clear the registry entry entirely. -/
def unbindAllM (st : PState) (s : Stage) : PState :=
  match st.registry.find? (fun p => p.1 == s) with
  | none => st
  | some entry =>
    { st with
      fwdBound := entry.2.foldl (fun acc e => eraseOne acc (s, e)) st.fwdBound
      registry := st.registry.eraseP (fun p => p.1 == s) }

/-- Per removed stage, `splice` removes the shared error handler
(`removeListener('error', this._errorHandler)`) and calls `unbindAll`. -/
def cleanupRemoved (st : PState) (s : Stage) : PState :=
  unbindAllM { st with errorBound := eraseOne st.errorBound s } s

/-- `index = index >= 0 ? index : this._streams.length + index`
(pipeline.js line 376). -/
def normIndex (n : Nat) (index : Int) : Int :=
  if 0 ≤ index then index else (n : Int) + index

/-- `remove = remove != null ? remove : length - index;
remove = Math.max(0, Math.min(length - index, remove))`
(pipeline.js lines 379–380), applied to the already-normalized index. -/
def clampRemove (n : Nat) (idx : Int) (removeArg : Option Int) : Int :=
  max 0 (min ((n : Int) - idx) (removeArg.getD ((n : Int) - idx)))

/-- `Array.prototype.splice` (ECMA-262): clamp the start into `[0, len]`
(negative counted from the end), clamp the delete count into
`[0, len - start]`, return the removed slice and the new array. -/
def jsSplice {α : Type} (l : List α) (start delCount : Int) (items : List α) :
    List α × List α :=
  let len : Int := l.length
  let actualStart : Nat :=
    if start < 0 then (len + start).toNat else (min start len).toNat
  let actualDel : Nat := (min (max delCount 0) (len - (actualStart : Int))).toNat
  ((l.drop actualStart).take actualDel,
   l.take actualStart ++ items ++ l.drop (actualStart + actualDel))

/-- `Pipeline#splice(index, remove, ...streams)` (pipeline.js lines 373–405):
normalize the index, default and clamp the removal count, detach the current
wiring, attach the shared error handler to each incoming stage, splice the
stage list, clean up each removed stage, re-attach the wiring, and return the
removed stages. -/
def splice (st : PState) (index : Int) (removeArg : Option Int)
    (newStreams : List Stage) : List Stage × PState :=
  let idx := normIndex st.streams.length index
  let rem := clampRemove st.streams.length idx removeArg
  let st1 := beforeMutate st
  let st2 := { st1 with errorBound := st1.errorBound ++ newStreams }
  let spl := jsSplice st.streams idx rem newStreams
  let st3 := { st2 with streams := spl.2 }
  let st4 := spl.1.foldl cleanupRemoved st3
  (spl.1, afterMutate st4)

/-- `Pipeline#append(...streams)`: `splice(length, 0, ...streams)`, returning
the new length. -/
def append (st : PState) (ss : List Stage) : Nat × PState :=
  let st' := (splice st (st.streams.length : Int) (some 0) ss).2
  (st'.streams.length, st')

/-- `Pipeline#prepend(...streams)`: `splice(0, 0, ...streams)`, returning the
new length. -/
def prepend (st : PState) (ss : List Stage) : Nat × PState :=
  let st' := (splice st 0 (some 0) ss).2
  (st'.streams.length, st')

/-- A JavaScript argument value as far as `insert`'s `typeof` check can
distinguish it: a number, or some non-numeric value. -/
inductive JsArg where
  | num (i : Int)
  | str (s : String)
  | undef
deriving DecidableEq

/-- `Pipeline#insert(index, ...streams)`: throw synchronously if `index` is
not a number, otherwise `splice(index, 0, ...streams)` and return the new
length.  The second component is the pipeline state after the call. -/
def insert (st : PState) (index : JsArg) (ss : List Stage) :
    Except String Nat × PState :=
  match index with
  | .num i =>
    let st' := (splice st i (some 0) ss).2
    (Except.ok st'.streams.length, st')
  | _ => (Except.error "Insertion index must be a number", st)

/-- `Array.prototype.indexOf` with no `fromIndex`: the first index of `x`, or
`-1` when absent. -/
def jsIndexOf {α : Type} [DecidableEq α] (l : List α) (x : α) : Int :=
  let i := l.indexOf x
  if i < l.length then (i : Int) else -1

/-- `Pipeline#remove(stream)`: `~indexOf(stream) ? splice(index, 1)[0] : null`. -/
def remove (st : PState) (s : Stage) : Option Stage × PState :=
  let idx := jsIndexOf st.streams s
  if idx ≠ -1 then
    let r := splice st idx (some 1) []
    (r.1.head?, r.2)
  else (none, st)

/-- `Pipeline#shift()`: `splice(0, 1)[0]`. -/
def shift (st : PState) : Option Stage × PState :=
  let r := splice st 0 (some 1) []
  (r.1.head?, r.2)

/-- `Pipeline#pop()`: `splice(length - 1, 1)[0]`. -/
def pop (st : PState) : Option Stage × PState :=
  let r := splice st ((st.streams.length : Int) - 1) (some 1) []
  (r.1.head?, r.2)

/-- The multiset holding just the last element of a list (empty for `[]`):
the stages that should carry the flow controller's listeners. -/
def lastMS (l : List Stage) : Multiset Stage :=
  match l.getLast? with
  | none => 0
  | some a => {a}

/-- The wiring invariant of the pipeline outside of a mutation: the pipe
edges are exactly the adjacent pairs, exactly the last stage carries the
flow controller's `readable` and `end` listeners, and every stage occurrence
in the list carries one shared error handler. -/
def Wired (st : PState) : Prop :=
  (st.pipes : Multiset (Stage × Stage)) = ((adjPairs st.streams : List (Stage × Stage)) : Multiset (Stage × Stage)) ∧
  (st.readableBound : Multiset Stage) = lastMS st.streams ∧
  (st.endBound : Multiset Stage) = lastMS st.streams ∧
  (st.errorBound : Multiset Stage) = (st.streams : Multiset Stage)

instance (st : PState) : Decidable (Wired st) := by
  unfold Wired
  infer_instance

/-! ### Helper lemmas about the mutation engine -/

lemma coe_eraseOne {α : Type} [DecidableEq α] (l : List α) (a : α) :
    ((eraseOne l a : List α) : Multiset α) = ((l : Multiset α)).erase a :=
  (Multiset.coe_erase l a).symm

lemma coe_foldl_erase {α : Type} [DecidableEq α] :
    ∀ (ps init : List α),
      ((List.foldl (fun acc a => eraseOne acc a) init ps : List α) : Multiset α) =
        (init : Multiset α) - (ps : Multiset α)
  | [], init => by simp
  | a :: ps, init => by
    rw [List.foldl_cons, coe_foldl_erase ps (eraseOne init a)]
    have h1 : ((a :: ps : List α) : Multiset α) = a ::ₘ (ps : Multiset α) := rfl
    rw [h1, Multiset.sub_cons, coe_eraseOne]

lemma unbindAllM_core (st : PState) (s : Stage) :
    (unbindAllM st s).streams = st.streams ∧
    (unbindAllM st s).readableBound = st.readableBound ∧
    (unbindAllM st s).endBound = st.endBound ∧
    (unbindAllM st s).pipes = st.pipes ∧
    (unbindAllM st s).errorBound = st.errorBound := by
  unfold unbindAllM
  split <;> exact ⟨rfl, rfl, rfl, rfl, rfl⟩

lemma cleanup_foldl :
    ∀ (rs : List Stage) (st : PState),
      (List.foldl cleanupRemoved st rs).streams = st.streams ∧
      (List.foldl cleanupRemoved st rs).readableBound = st.readableBound ∧
      (List.foldl cleanupRemoved st rs).endBound = st.endBound ∧
      (List.foldl cleanupRemoved st rs).pipes = st.pipes ∧
      ((List.foldl cleanupRemoved st rs).errorBound : Multiset Stage) =
        (st.errorBound : Multiset Stage) - (rs : Multiset Stage)
  | [], st => by simp
  | r :: rs, st => by
    have h := cleanup_foldl rs (cleanupRemoved st r)
    have hc := unbindAllM_core { st with errorBound := eraseOne st.errorBound r } r
    have hcr : cleanupRemoved st r =
        unbindAllM { st with errorBound := eraseOne st.errorBound r } r := rfl
    rw [List.foldl_cons]
    refine ⟨?_, ?_, ?_, ?_, ?_⟩
    · rw [h.1, hcr, hc.1]
    · rw [h.2.1, hcr, hc.2.1]
    · rw [h.2.2.1, hcr, hc.2.2.1]
    · rw [h.2.2.2.1, hcr, hc.2.2.2.1]
    · rw [h.2.2.2.2, hcr, hc.2.2.2.2]
      have h1 : ((r :: rs : List Stage) : Multiset Stage) = r ::ₘ (rs : Multiset Stage) := rfl
      rw [h1, Multiset.sub_cons, coe_eraseOne]

lemma beforeMutate_eq_nil (st : PState) (h : st.streams.getLast? = none) :
    beforeMutate st =
      { st with pipes := List.foldl (fun acc p => eraseOne acc p) st.pipes (adjPairs st.streams) } := by
  simp [beforeMutate, h]

lemma beforeMutate_eq_last (st : PState) (last : Stage) (h : st.streams.getLast? = some last) :
    beforeMutate st =
      { st with
        readableBound := eraseOne st.readableBound last
        endBound := eraseOne st.endBound last
        pipes := List.foldl (fun acc p => eraseOne acc p) st.pipes (adjPairs st.streams) } := by
  simp [beforeMutate, h]

lemma afterMutate_eq_nil (st : PState) (h : st.streams.getLast? = none) :
    afterMutate st = { st with pipes := st.pipes ++ adjPairs st.streams } := by
  simp [afterMutate, h]

lemma afterMutate_eq_last (st : PState) (last : Stage) (h : st.streams.getLast? = some last) :
    afterMutate st =
      { st with
        readableBound := st.readableBound ++ [last]
        endBound := st.endBound ++ [last]
        pipes := st.pipes ++ adjPairs st.streams } := by
  simp [afterMutate, h]

lemma beforeMutate_fields (st : PState) :
    (beforeMutate st).streams = st.streams ∧
    (beforeMutate st).errorBound = st.errorBound := by
  cases h : st.streams.getLast? with
  | none => rw [beforeMutate_eq_nil st h]; exact ⟨rfl, rfl⟩
  | some last => rw [beforeMutate_eq_last st last h]; exact ⟨rfl, rfl⟩

lemma afterMutate_streams (st : PState) : (afterMutate st).streams = st.streams := by
  cases h : st.streams.getLast? with
  | none => rw [afterMutate_eq_nil st h]
  | some last => rw [afterMutate_eq_last st last h]

lemma beforeMutate_wired (st : PState) (hw : Wired st) :
    ((beforeMutate st).pipes : Multiset (Stage × Stage)) = 0 ∧
    ((beforeMutate st).readableBound : Multiset Stage) = 0 ∧
    ((beforeMutate st).endBound : Multiset Stage) = 0 := by
  obtain ⟨hp, hr, he, _⟩ := hw
  cases h : st.streams.getLast? with
  | none =>
    have hnil : st.streams = [] := by simpa using h
    have h0 : lastMS st.streams = 0 := by rw [lastMS, h]
    rw [beforeMutate_eq_nil st h]
    refine ⟨?_, ?_, ?_⟩
    · show ((List.foldl (fun acc p => eraseOne acc p) st.pipes (adjPairs st.streams) :
          List (Stage × Stage)) : Multiset (Stage × Stage)) = 0
      rw [coe_foldl_erase, hp]
      exact tsub_self _
    · rw [hr, h0]
    · rw [he, h0]
  | some last =>
    have hlast : lastMS st.streams = {last} := by rw [lastMS, h]
    rw [beforeMutate_eq_last st last h]
    refine ⟨?_, ?_, ?_⟩
    · show ((List.foldl (fun acc p => eraseOne acc p) st.pipes (adjPairs st.streams) :
          List (Stage × Stage)) : Multiset (Stage × Stage)) = 0
      rw [coe_foldl_erase, hp]
      exact tsub_self _
    · show ((eraseOne st.readableBound last : List Stage) : Multiset Stage) = 0
      rw [coe_eraseOne, hr, hlast]
      simp
    · show ((eraseOne st.endBound last : List Stage) : Multiset Stage) = 0
      rw [coe_eraseOne, he, hlast]
      simp

lemma slice_decomp {α : Type} (l : List α) (a b : Nat) (items : List α) :
    ((l.take a ++ items ++ l.drop (a + b) : List α) : Multiset α) +
        (((l.drop a).take b : List α) : Multiset α) =
      (l : Multiset α) + (items : Multiset α) := by
  have h2 : (l.drop a).drop b = l.drop (a + b) := by rw [List.drop_drop]
  have h3 : l = l.take a ++ ((l.drop a).take b ++ (l.drop a).drop b) := by
    rw [List.take_append_drop b (l.drop a), List.take_append_drop a l]
  conv_rhs => rw [h3, h2]
  simp only [← Multiset.coe_add]
  abel

lemma jsSplice_add {α : Type} (l : List α) (s d : Int) (items : List α) :
    ((jsSplice l s d items).2 : Multiset α) + ((jsSplice l s d items).1 : Multiset α) =
      (l : Multiset α) + (items : Multiset α) := by
  simp only [jsSplice]
  exact slice_decomp l _ _ items

lemma afterMutate_wired (st : PState)
    (hp : (st.pipes : Multiset (Stage × Stage)) = 0)
    (hr : (st.readableBound : Multiset Stage) = 0)
    (he : (st.endBound : Multiset Stage) = 0)
    (herr : (st.errorBound : Multiset Stage) = (st.streams : Multiset Stage)) :
    Wired (afterMutate st) := by
  unfold Wired
  cases h : st.streams.getLast? with
  | none =>
    have h0 : lastMS st.streams = 0 := by rw [lastMS, h]
    rw [afterMutate_eq_nil st h]
    refine ⟨?_, ?_, ?_, ?_⟩
    · show ((st.pipes ++ adjPairs st.streams : List (Stage × Stage)) : Multiset (Stage × Stage)) = _
      rw [← Multiset.coe_add, hp, zero_add]
    · rw [h0]
      exact hr
    · rw [h0]
      exact he
    · exact herr
  | some last =>
    have hlast : lastMS st.streams = {last} := by rw [lastMS, h]
    rw [afterMutate_eq_last st last h]
    refine ⟨?_, ?_, ?_, ?_⟩
    · show ((st.pipes ++ adjPairs st.streams : List (Stage × Stage)) : Multiset (Stage × Stage)) = _
      rw [← Multiset.coe_add, hp, zero_add]
    · show ((st.readableBound ++ [last] : List Stage) : Multiset Stage) = _
      rw [← Multiset.coe_add, hr, zero_add, hlast]
      simp
    · show ((st.endBound ++ [last] : List Stage) : Multiset Stage) = _
      rw [← Multiset.coe_add, he, zero_add, hlast]
      simp
    · exact herr

lemma splice_unfold (st : PState) (i : Int) (r : Option Int) (ss : List Stage) :
    splice st i r ss =
      ((jsSplice st.streams (normIndex st.streams.length i)
          (clampRemove st.streams.length (normIndex st.streams.length i) r) ss).1,
       afterMutate
         (List.foldl cleanupRemoved
           { beforeMutate st with
             errorBound := (beforeMutate st).errorBound ++ ss
             streams := (jsSplice st.streams (normIndex st.streams.length i)
               (clampRemove st.streams.length (normIndex st.streams.length i) r) ss).2 }
           (jsSplice st.streams (normIndex st.streams.length i)
             (clampRemove st.streams.length (normIndex st.streams.length i) r) ss).1)) := rfl

lemma splice_streams (st : PState) (i : Int) (r : Option Int) (ss : List Stage) :
    (splice st i r ss).2.streams =
      (jsSplice st.streams (normIndex st.streams.length i)
        (clampRemove st.streams.length (normIndex st.streams.length i) r) ss).2 := by
  rw [splice_unfold, afterMutate_streams, (cleanup_foldl _ _).1]

lemma splice_wired (st : PState) (i : Int) (r : Option Int) (ss : List Stage)
    (hw : Wired st) : Wired (splice st i r ss).2 := by
  have hb := beforeMutate_wired st hw
  have hbf := beforeMutate_fields st
  rw [splice_unfold]
  set spl := jsSplice st.streams (normIndex st.streams.length i)
    (clampRemove st.streams.length (normIndex st.streams.length i) r) ss with hspl
  set st3 : PState :=
    { beforeMutate st with
      errorBound := (beforeMutate st).errorBound ++ ss
      streams := spl.2 } with hst3
  have hcf := cleanup_foldl spl.1 st3
  apply afterMutate_wired
  · rw [hcf.2.2.2.1]
    exact hb.1
  · rw [hcf.2.1]
    exact hb.2.1
  · rw [hcf.2.2.1]
    exact hb.2.2
  · rw [hcf.2.2.2.2, hcf.1]
    have h1 : st3.errorBound = st.errorBound ++ ss := by
      rw [hst3]
      show (beforeMutate st).errorBound ++ ss = st.errorBound ++ ss
      rw [hbf.2]
    have h2 : st3.streams = spl.2 := rfl
    rw [h1, h2, ← Multiset.coe_add, hw.2.2.2, ← jsSplice_add st.streams
      (normIndex st.streams.length i)
      (clampRemove st.streams.length (normIndex st.streams.length i) r) ss, ← hspl]
    exact add_tsub_cancel_right _ _

lemma jsSplice_inrange {α : Type} (l : List α) (s d : Int) (items : List α)
    (hs0 : 0 ≤ s) (hsn : s ≤ (l.length : Int)) (hd0 : 0 ≤ d)
    (hdn : d ≤ (l.length : Int) - s) :
    jsSplice l s d items =
      ((l.drop s.toNat).take d.toNat,
       l.take s.toNat ++ items ++ l.drop (s.toNat + d.toNat)) := by
  have h1 : ¬ s < 0 := by omega
  have h2 : min s (l.length : Int) = s := by omega
  have h3 : ((s.toNat : Nat) : Int) = s := Int.toNat_of_nonneg hs0
  have h4 : min (max d 0) ((l.length : Int) - (s.toNat : Int)) = d := by omega
  have h5 : min (max d 0) ((l.length : Int) - s) = d := by omega
  simp only [jsSplice, if_neg h1, h2, h3, h4, h5]

lemma normIndex_bounds (n : Nat) (i : Int) (h1 : -(n : Int) ≤ i) (h2 : i ≤ (n : Int)) :
    0 ≤ normIndex n i ∧ normIndex n i ≤ (n : Int) := by
  unfold normIndex
  split <;> omega

lemma clampRemove_bounds (n : Nat) (idx : Int) (rc : Option Int) (h : idx ≤ (n : Int)) :
    0 ≤ clampRemove n idx rc ∧ clampRemove n idx rc ≤ (n : Int) - idx := by
  unfold clampRemove
  constructor
  · exact le_max_left 0 _
  · have h1 : 0 ≤ (n : Int) - idx := by omega
    have h2 : min ((n : Int) - idx) (rc.getD ((n : Int) - idx)) ≤ (n : Int) - idx :=
      min_le_left _ _
    omega

/-- **C1.** For a pipeline of `n` stages and an index in the meaningful range
`[-n, n]` (negatives counted from the end), `splice(index, removeCount,
...newStages)` normalizes a negative index by adding `n`, defaults the
removal count to `n - index` when it is not given, clamps it into
`[0, n - index]`, removes exactly that many stages starting at the normalized
index (returning them in their original order), and inserts the new stages at
that position. -/
theorem C1_splice_semantics (st : PState) (i : Int) (rc : Option Int) (ss : List Stage)
    (h1 : -(st.streams.length : Int) ≤ i) (h2 : i ≤ (st.streams.length : Int)) :
    (splice st i rc ss).1 =
      (st.streams.drop (normIndex st.streams.length i).toNat).take
        (clampRemove st.streams.length (normIndex st.streams.length i) rc).toNat ∧
    ((splice st i rc ss).1).length =
      (clampRemove st.streams.length (normIndex st.streams.length i) rc).toNat ∧
    (splice st i rc ss).2.streams =
      st.streams.take (normIndex st.streams.length i).toNat ++ ss ++
        st.streams.drop ((normIndex st.streams.length i).toNat +
          (clampRemove st.streams.length (normIndex st.streams.length i) rc).toNat) := by
  obtain ⟨hi0, hin⟩ := normIndex_bounds st.streams.length i h1 h2
  obtain ⟨hr0, hrn⟩ := clampRemove_bounds st.streams.length
    (normIndex st.streams.length i) rc hin
  have hjs := jsSplice_inrange st.streams (normIndex st.streams.length i)
    (clampRemove st.streams.length (normIndex st.streams.length i) rc) ss hi0 hin hr0 hrn
  have hfst : (splice st i rc ss).1 =
      (jsSplice st.streams (normIndex st.streams.length i)
        (clampRemove st.streams.length (normIndex st.streams.length i) rc) ss).1 := by
    rw [splice_unfold]
  refine ⟨?_, ?_, ?_⟩
  · rw [hfst, hjs]
  · rw [hfst, hjs]
    have hlen : (st.streams.drop (normIndex st.streams.length i).toNat).length =
        st.streams.length - (normIndex st.streams.length i).toNat := List.length_drop _ _
    rw [List.length_take, hlen]
    omega
  · rw [splice_streams, hjs]

/-- Witness for C1: `splice(-2)` with no removal count on a three-stage
pipeline removes the last two stages and inserts the new stage at index 1. -/
theorem C1_splice_semantics_witness :
    (splice ⟨[10, 20, 30], [], [], [], [], [], []⟩ (-2) none [7]).1 =
      (([10, 20, 30] : List Stage).drop (normIndex 3 (-2)).toNat).take
        (clampRemove 3 (normIndex 3 (-2)) none).toNat ∧
    ((splice ⟨[10, 20, 30], [], [], [], [], [], []⟩ (-2) none [7]).1).length =
      (clampRemove 3 (normIndex 3 (-2)) none).toNat ∧
    (splice ⟨[10, 20, 30], [], [], [], [], [], []⟩ (-2) none [7]).2.streams =
      ([10, 20, 30] : List Stage).take (normIndex 3 (-2)).toNat ++ [7] ++
        ([10, 20, 30] : List Stage).drop ((normIndex 3 (-2)).toNat +
          (clampRemove 3 (normIndex 3 (-2)) none).toNat) :=
  C1_splice_semantics ⟨[10, 20, 30], [], [], [], [], [], []⟩ (-2) none [7]
    (by decide) (by decide)

lemma lastMS_mem (l : List Stage) (x : Stage) (hx : x ∈ lastMS l) : x ∈ l := by
  cases h : l.getLast? with
  | none => rw [lastMS, h] at hx; exact absurd hx (Multiset.not_mem_zero x)
  | some a =>
    rw [lastMS, h] at hx
    have hxa : x = a := by simpa using hx
    exact hxa ▸ List.mem_of_getLast?_eq_some h

lemma wired_not_mem (st : PState) (hw : Wired st) (x : Stage) (hx : x ∉ st.streams) :
    x ∉ st.readableBound ∧ x ∉ st.endBound ∧ x ∉ st.errorBound ∧
    ∀ p ∈ st.pipes, p.1 ≠ x ∧ p.2 ≠ x := by
  obtain ⟨hp, hr, he, herr⟩ := hw
  refine ⟨?_, ?_, ?_, ?_⟩
  · intro hmem
    have h1 : x ∈ (st.readableBound : Multiset Stage) := Multiset.mem_coe.mpr hmem
    rw [hr] at h1
    exact hx (lastMS_mem st.streams x h1)
  · intro hmem
    have h1 : x ∈ (st.endBound : Multiset Stage) := Multiset.mem_coe.mpr hmem
    rw [he] at h1
    exact hx (lastMS_mem st.streams x h1)
  · intro hmem
    have h1 : x ∈ (st.errorBound : Multiset Stage) := Multiset.mem_coe.mpr hmem
    rw [herr] at h1
    exact hx (Multiset.mem_coe.mp h1)
  · intro p hmem
    have h1 : p ∈ (st.pipes : Multiset (Stage × Stage)) := Multiset.mem_coe.mpr hmem
    rw [hp] at h1
    have h2 : p ∈ adjPairs st.streams := Multiset.mem_coe.mp h1
    have h3 : p.1 ∈ st.streams ∧ p.2 ∈ st.streams.tail := List.of_mem_zip h2
    exact ⟨fun hq => hx (hq ▸ h3.1),
           fun hq => hx (hq ▸ List.mem_of_mem_tail h3.2)⟩

/-- **C2.** Every completed mutation operation preserves the wiring
invariant: adjacent stages piped pairwise, exactly the last stage carrying
the flow controller's `readable`/`end` listeners, one shared error handler
per stage occurrence; and a stage removed by `splice` that no longer occurs
in the list retains neither those listeners nor any pipe. -/
theorem C2_wiring_invariant (st : PState) (i : Int) (r : Option Int) (ss : List Stage)
    (arg : JsArg) (s : Stage) (hw : Wired st) :
    Wired (splice st i r ss).2 ∧
    (∀ x ∈ (splice st i r ss).1, x ∉ (splice st i r ss).2.streams →
      x ∉ (splice st i r ss).2.readableBound ∧
      x ∉ (splice st i r ss).2.endBound ∧
      x ∉ (splice st i r ss).2.errorBound ∧
      ∀ p ∈ (splice st i r ss).2.pipes, p.1 ≠ x ∧ p.2 ≠ x) ∧
    Wired (append st ss).2 ∧
    Wired (prepend st ss).2 ∧
    Wired (insert st arg ss).2 ∧
    Wired (remove st s).2 ∧
    Wired (shift st).2 ∧
    Wired (pop st).2 := by
  have hmain := splice_wired st i r ss hw
  refine ⟨hmain, ?_, ?_, ?_, ?_, ?_, ?_, ?_⟩
  · intro x _ hx
    exact wired_not_mem (splice st i r ss).2 hmain x hx
  · exact splice_wired st _ _ ss hw
  · exact splice_wired st _ _ ss hw
  · cases arg with
    | num j => exact splice_wired st _ _ ss hw
    | str t => exact hw
    | undef => exact hw
  · unfold remove
    by_cases h : jsIndexOf st.streams s ≠ -1
    · simp only [if_pos h]
      exact splice_wired st _ _ [] hw
    · simp only [if_neg h]
      exact hw
  · exact splice_wired st _ _ [] hw
  · exact splice_wired st _ _ [] hw

/-- Witness for C2: the invariant is preserved by a concrete splice on a
concretely wired two-stage pipeline. -/
theorem C2_wiring_invariant_witness :
    Wired (splice ⟨[1, 2], [2], [2], [1, 2], [(1, 2)], [], []⟩ 0 (some 1) [9]).2 :=
  (C2_wiring_invariant ⟨[1, 2], [2], [2], [1, 2], [(1, 2)], [], []⟩ 0 (some 1) [9]
    JsArg.undef 1 (by decide)).1

/-- A stage error value: some payload plus the `stream` property the shared
error handler assigns. -/
structure JsErr where
  msg : String
  stream : Option Stage
deriving DecidableEq

/-- `_errorHandler` (pipeline.js lines 43–46): `error.stream = this;
self.emit('error', error)` — tag the error with the originating stage and
re-emit it as the composite's own `error` event. -/
def errorHandlerRun (origin : Stage) (err : JsErr) : JsErr × (String × JsErr) :=
  let tagged := { err with stream := some origin }
  (tagged, ("error", tagged))

/-- **C6.** After a splice, every stage occurrence in the list carries the
shared error handler (attached on insertion, detached on removal), and the
handler tags a raised error with the originating stage and re-emits it as
the composite's own `error` event. -/
theorem C6_error_handler (st : PState) (i : Int) (r : Option Int) (ss : List Stage)
    (origin : Stage) (err : JsErr) (hw : Wired st) :
    ((splice st i r ss).2.errorBound : Multiset Stage) =
      ((splice st i r ss).2.streams : Multiset Stage) ∧
    (∀ x ∈ (splice st i r ss).2.streams, x ∈ (splice st i r ss).2.errorBound) ∧
    (errorHandlerRun origin err).1.stream = some origin ∧
    (errorHandlerRun origin err).1.msg = err.msg ∧
    (errorHandlerRun origin err).2 = ("error", (errorHandlerRun origin err).1) := by
  have hmain := splice_wired st i r ss hw
  have herr := hmain.2.2.2
  refine ⟨herr, ?_, rfl, rfl, rfl⟩
  intro x hx
  exact Multiset.mem_coe.mp (herr ▸ Multiset.mem_coe.mpr hx)

/-- Witness for C6: concrete splice into a concretely wired pipeline, plus
concrete handler run. -/
theorem C6_error_handler_witness :
    ((splice ⟨[1, 2], [2], [2], [1, 2], [(1, 2)], [], []⟩ 1 none [5, 6]).2.errorBound :
        Multiset Stage) =
      ((splice ⟨[1, 2], [2], [2], [1, 2], [(1, 2)], [], []⟩ 1 none [5, 6]).2.streams :
        Multiset Stage) ∧
    (errorHandlerRun 5 ⟨"boom", none⟩).1.stream = some 5 :=
  ⟨(C6_error_handler ⟨[1, 2], [2], [2], [1, 2], [(1, 2)], [], []⟩ 1 none [5, 6]
      5 ⟨"boom", none⟩ (by decide)).1,
   (C6_error_handler ⟨[1, 2], [2], [2], [1, 2], [(1, 2)], [], []⟩ 1 none [5, 6]
      5 ⟨"boom", none⟩ (by decide)).2.2.1⟩

lemma jsIndexOf_found {α : Type} [DecidableEq α] (l : List α) (x : α)
    (h : jsIndexOf l x ≠ -1) :
    l.indexOf x < l.length ∧ jsIndexOf l x = (l.indexOf x : Int) := by
  unfold jsIndexOf at *
  by_cases hlt : l.indexOf x < l.length
  · exact ⟨hlt, by simp [hlt]⟩
  · simp [hlt] at h

lemma remove_found (st : PState) (s : Stage) (h : jsIndexOf st.streams s ≠ -1) :
    (remove st s).1 = some s := by
  obtain ⟨hlt, hval⟩ := jsIndexOf_found st.streams s h
  unfold remove
  simp only [if_pos h]
  show (splice st (jsIndexOf st.streams s) (some 1) []).1.head? = some s
  rw [splice_unfold]
  have hnorm : normIndex st.streams.length (jsIndexOf st.streams s) =
      ((st.streams.indexOf s : Nat) : Int) := by
    rw [hval, normIndex, if_pos (Int.ofNat_nonneg _)]
  have hclamp : clampRemove st.streams.length ((st.streams.indexOf s : Nat) : Int)
      (some 1) = 1 := by
    rw [clampRemove]
    simp only [Option.getD_some]
    omega
  rw [hnorm, hclamp]
  rw [jsSplice_inrange st.streams ((st.streams.indexOf s : Nat) : Int) 1 []
    (Int.ofNat_nonneg _) (by omega) (by omega) (by omega)]
  have htn : (((st.streams.indexOf s : Nat) : Int)).toNat = st.streams.indexOf s := by
    omega
  rw [htn]
  rw [List.drop_eq_getElem_cons hlt]
  simp [List.getElem_indexOf hlt]

/-- **C7.** Each convenience operation equals the stated `splice` call:
`append` splices at `n`, `prepend` at `0`, `insert` at a numeric index with
zero removals (each returning the new length), `remove` splices one stage at
`indexOf(stage)` and returns it (a no-op returning nothing when absent), and
`shift`/`pop` splice one stage off at `0`/`n-1`. -/
theorem C7_convenience_ops (st : PState) (ss : List Stage) (i : Int) (s : Stage) :
    append st ss = ((splice st (st.streams.length : Int) (some 0) ss).2.streams.length,
      (splice st (st.streams.length : Int) (some 0) ss).2) ∧
    prepend st ss = ((splice st 0 (some 0) ss).2.streams.length,
      (splice st 0 (some 0) ss).2) ∧
    insert st (JsArg.num i) ss = (Except.ok (splice st i (some 0) ss).2.streams.length,
      (splice st i (some 0) ss).2) ∧
    (jsIndexOf st.streams s ≠ -1 →
      remove st s = ((splice st (jsIndexOf st.streams s) (some 1) []).1.head?,
        (splice st (jsIndexOf st.streams s) (some 1) []).2) ∧
      (remove st s).1 = some s) ∧
    (jsIndexOf st.streams s = -1 → remove st s = (none, st)) ∧
    shift st = ((splice st 0 (some 1) []).1.head?, (splice st 0 (some 1) []).2) ∧
    pop st = ((splice st ((st.streams.length : Int) - 1) (some 1) []).1.head?,
      (splice st ((st.streams.length : Int) - 1) (some 1) []).2) := by
  refine ⟨rfl, rfl, rfl, ?_, ?_, rfl, rfl⟩
  · intro h
    constructor
    · unfold remove
      simp only [if_pos h]
    · exact remove_found st s h
  · intro h
    have hnn : ¬ jsIndexOf st.streams s ≠ -1 := by simp [h]
    unfold remove
    simp only [if_neg hnn]

/-- Witness for C7: the `remove` branches exercised on a one-stage pipeline,
for a present and an absent stage. -/
theorem C7_convenience_ops_witness :
    (remove ⟨[7], [], [], [], [], [], []⟩ 7).1 = some 7 ∧
    remove ⟨[7], [], [], [], [], [], []⟩ 9 = (none, ⟨[7], [], [], [], [], [], []⟩) :=
  ⟨((C7_convenience_ops ⟨[7], [], [], [], [], [], []⟩ [] 0 7).2.2.2.1 (by decide)).2,
   (C7_convenience_ops ⟨[7], [], [], [], [], [], []⟩ [] 0 9).2.2.2.2.1 (by decide)⟩

/-- **C9.** `insert` with a non-numeric index raises the argument error
synchronously and leaves the pipeline state entirely unchanged. -/
theorem C9_insert_nonnumeric (st : PState) (arg : JsArg) (ss : List Stage)
    (h : ∀ j : Int, arg ≠ JsArg.num j) :
    (insert st arg ss).1 = Except.error "Insertion index must be a number" ∧
    (insert st arg ss).2 = st := by
  cases arg with
  | num j => exact absurd rfl (h j)
  | str t => exact ⟨rfl, rfl⟩
  | undef => exact ⟨rfl, rfl⟩

/-- Witness for C9: `insert('x', 5)` on a one-stage pipeline errors and
leaves the state unchanged. -/
theorem C9_insert_nonnumeric_witness :
    (insert ⟨[1], [1], [1], [1], [], [], []⟩ (JsArg.str "x") [5]).1 =
      Except.error "Insertion index must be a number" ∧
    (insert ⟨[1], [1], [1], [1], [], [], []⟩ (JsArg.str "x") [5]).2 =
      ⟨[1], [1], [1], [1], [], [], []⟩ :=
  C9_insert_nonnumeric ⟨[1], [1], [1], [1], [], [], []⟩ (JsArg.str "x") [5]
    (fun _ hc => JsArg.noConfusion hc)

/-- **C10.** On an empty pipeline, `shift()` and `pop()` return nothing,
raise no error, and leave the state unchanged — even though `pop()` calls
`splice` with index `n - 1 = -1`. -/
theorem C10_empty_shift_pop (st : PState) (h : st.streams = []) :
    shift st = (none, st) ∧ pop st = (none, st) ∧
    (st.streams.length : Int) - 1 = -1 := by
  obtain ⟨l, rb, eb, errb, pp, reg, fw⟩ := st
  simp only at h
  subst h
  refine ⟨?_, ?_, rfl⟩
  · simp [shift, splice, beforeMutate, afterMutate, normIndex, clampRemove,
      jsSplice, adjPairs]
  · simp [pop, splice, beforeMutate, afterMutate, normIndex, clampRemove,
      jsSplice, adjPairs]

/-- Witness for C10: concrete empty pipeline. -/
theorem C10_empty_shift_pop_witness :
    shift ⟨[], [], [], [], [], [], []⟩ = (none, ⟨[], [], [], [], [], [], []⟩) ∧
    pop ⟨[], [], [], [], [], [], []⟩ = (none, ⟨[], [], [], [], [], [], []⟩) ∧
    ((([] : List Stage).length : Int) - 1) = -1 :=
  C10_empty_shift_pop ⟨[], [], [], [], [], [], []⟩ rfl

/-! ### The flow controller: `_write`, `_read`, and the finish handshake -/

/-- A data chunk, identified abstractly. -/
abbrev Chunk := Nat

/-- Observable effect of one `Pipeline#_write(chunk, encoding, next)` call:
the chunks pushed to the composite's own readable side, whether the
completion callback `next` was invoked synchronously, the stage the chunk
was handed to (with the chunk), and the boolean returned (the backpressure
signal reported by `stages[0].write`, absent in the empty passthrough
case where `next()`'s value is returned). -/
structure WriteOut where
  pushed : List Chunk
  nextNow : Bool
  forwarded : Option (Stage × Chunk)
  ret : Option Bool
deriving DecidableEq

/-- `Pipeline#_write` (pipeline.js lines 154–163): with no stages, push the
chunk to the composite's readable side and call `next()`; otherwise return
`stages[0].write(chunk, encoding, next)`.  `stageWrite` gives each stage's
backpressure reply to a write. -/
def pipelineWrite (streams : List Stage) (stageWrite : Stage → Chunk → Bool)
    (chunk : Chunk) : WriteOut :=
  match streams with
  | [] => { pushed := [chunk], nextNow := true, forwarded := none, ret := none }
  | s :: _ =>
    { pushed := [], nextNow := false, forwarded := some (s, chunk),
      ret := some (stageWrite s chunk) }

/-- **C3.** `write` on an empty pipeline pushes the chunk straight to the
composite's readable side and completes immediately; on a non-empty pipeline
it hands the chunk to `stages[0]` and reports exactly the backpressure
boolean that `stages[0].write` reports. -/
theorem C3_write_routing (stageWrite : Stage → Chunk → Bool) (chunk : Chunk)
    (s : Stage) (rest : List Stage) :
    pipelineWrite [] stageWrite chunk =
      { pushed := [chunk], nextNow := true, forwarded := none, ret := none } ∧
    pipelineWrite (s :: rest) stageWrite chunk =
      { pushed := [], nextNow := false, forwarded := some (s, chunk),
        ret := some (stageWrite s chunk) } :=
  ⟨rfl, rfl⟩

/-- `Pipeline#_read`'s drain loop (pipeline.js lines 131–136): repeatedly
`stream.read()` from the buffer; push each chunk, breaking as soon as `push`
returns `false`.  `pushOk k` is the composite's backpressure reply to the
`(k+1)`-th push of this drain.  Returns the pushed chunks and the chunks
left in the stage's buffer. -/
def readLoop (pushOk : Nat → Bool) : List Chunk → Nat → List Chunk × List Chunk
  | [], _ => ([], [])
  | c :: rest, k =>
    if pushOk k then
      let r := readLoop pushOk rest (k + 1)
      (c :: r.1, r.2)
    else ([c], rest)

/-- `Pipeline#_read` (pipeline.js lines 122–144): take the last stage (do
nothing if there is none), drain it with the push loop, and if zero reads
happened subscribe once to `_read` — the event `_readHandler` emits on the
last stage's next `readable` announcement — to retry.  Returns
`(pushed, remaining buffer, retry-subscribed)`. -/
def pipelineRead (streams : List Stage) (bufOf : Stage → List Chunk)
    (pushOk : Nat → Bool) : Option (List Chunk × List Chunk × Bool) :=
  match streams.getLast? with
  | none => none
  | some s =>
    let r := readLoop pushOk (bufOf s) 0
    some (r.1, r.2, r.1.length == 0)

lemma readLoop_spec (pushOk : Nat → Bool) :
    ∀ (buf : List Chunk) (k : Nat),
      (readLoop pushOk buf k).1 ++ (readLoop pushOk buf k).2 = buf ∧
      ((readLoop pushOk buf k).2 ≠ [] →
        pushOk (k + (readLoop pushOk buf k).1.length - 1) = false) ∧
      (∀ j, j + 1 < (readLoop pushOk buf k).1.length → pushOk (k + j) = true) ∧
      ((readLoop pushOk buf k).1.length = 0 ↔ buf = [])
  | [], k => by simp [readLoop]
  | c :: rest, k => by
    by_cases hp : pushOk k
    · have ih := readLoop_spec pushOk rest (k + 1)
      simp only [readLoop, if_pos hp]
      refine ⟨?_, ?_, ?_, ?_⟩
      · simpa using ih.1
      · intro hne
        have h1 := ih.2.1 (by simpa using hne)
        have h2 : (readLoop pushOk rest (k + 1)).1.length ≠ 0 := by
          intro h0
          rw [ih.2.2.2.mp h0] at hne
          have : (readLoop pushOk ([] : List Chunk) (k + 1)).2 = [] := by
            simp [readLoop]
          simp [this] at hne
        simp only [List.length_cons]
        have harith : k + ((readLoop pushOk rest (k + 1)).1.length + 1) - 1 =
            k + 1 + (readLoop pushOk rest (k + 1)).1.length - 1 := by omega
        rw [harith]
        exact h1
      · intro j hj
        cases j with
        | zero => simpa using hp
        | succ j' =>
          have := ih.2.2.1 j' (by simpa using hj)
          have harith : k + (j' + 1) = k + 1 + j' := by omega
          rw [harith]
          exact this
      · simp
    · simp [readLoop, if_neg hp, hp]

/-- **C4.** On a non-empty pipeline, each pull drains the last stage's
buffer in order into the composite's readable side, stops exactly when the
consumer's push signal is `false` (every earlier push was accepted), leaves
the undrained chunks buffered, and subscribes a one-shot retry (woken by the
last stage's next `readable` via `_readHandler`) exactly when the pull
yielded zero chunks. -/
theorem C4_read_loop (init : List Stage) (s : Stage) (bufOf : Stage → List Chunk)
    (pushOk : Nat → Bool) :
    pipelineRead (init ++ [s]) bufOf pushOk =
      some ((readLoop pushOk (bufOf s) 0).1, (readLoop pushOk (bufOf s) 0).2,
        (readLoop pushOk (bufOf s) 0).1.length == 0) ∧
    (readLoop pushOk (bufOf s) 0).1 ++ (readLoop pushOk (bufOf s) 0).2 = bufOf s ∧
    ((readLoop pushOk (bufOf s) 0).2 ≠ [] →
      pushOk ((readLoop pushOk (bufOf s) 0).1.length - 1) = false) ∧
    (∀ j, j + 1 < (readLoop pushOk (bufOf s) 0).1.length → pushOk j = true) ∧
    (((readLoop pushOk (bufOf s) 0).1.length == 0) = true ↔ bufOf s = []) := by
  have hs := readLoop_spec pushOk (bufOf s) 0
  refine ⟨?_, hs.1, ?_, ?_, ?_⟩
  · rw [pipelineRead, List.getLast?_concat]
  · intro hne
    simpa using hs.2.1 hne
  · intro j hj
    simpa using hs.2.2.1 j hj
  · rw [Nat.beq_eq_true_eq]
    exact hs.2.2.2

/-- Witness for C4: a three-chunk buffer drained against a consumer that
saturates after the second push stops the loop with a `false` signal, and
the pull's result is reported to the composite. -/
theorem C4_read_loop_witness :
    decide (((readLoop (fun k => decide (k < 1)) [31, 32, 33] 0).1.length - 1) < 1)
      = false ∧
    pipelineRead ([4] ++ [5]) (fun _ => [31, 32, 33]) (fun k => decide (k < 1)) =
      some ((readLoop (fun k => decide (k < 1)) [31, 32, 33] 0).1,
        (readLoop (fun k => decide (k < 1)) [31, 32, 33] 0).2,
        (readLoop (fun k => decide (k < 1)) [31, 32, 33] 0).1.length == 0) :=
  ⟨(C4_read_loop [4] 5 (fun _ => [31, 32, 33]) (fun k => decide (k < 1))).2.2.1
      (by decide),
   (C4_read_loop [4] 5 (fun _ => [31, 32, 33]) (fun k => decide (k < 1))).1⟩

/-- A completion callback, identified abstractly. -/
abbrev Cb := Nat

/-- What the constructor's `'finish'` handler does once the input side has
completed. -/
inductive FinishEffect where
  | closeFirst (s : Stage)
  | pushEOF
deriving DecidableEq

/-- The `'finish'` handler installed by the constructor (pipeline.js lines
48–54): if there are stages, call `end()` on `stages[0]`; otherwise push
end-of-data on the composite's own readable side. -/
def finishHandler : List Stage → FinishEffect
  | [] => .pushEOF
  | s :: _ => .closeFirst s

/-- `Pipeline#end` (pipeline.js lines 172–184): if a callback was passed,
register it via `once('finish', callback)`.  Returns the one-shot
finish-listener list. -/
def endRegister (cb : Option Cb) (onceFinish : List Cb) : List Cb :=
  match cb with
  | some c => onceFinish ++ [c]
  | none => onceFinish

/-- The `'finish'` event firing: run the constructor's handler for the
current stage list, invoke every one-shot listener, and clear them
(`once` semantics).  Returns `(effect, invoked listeners, remaining
one-shot listeners)`. -/
def fireFinish (streams : List Stage) (onceFinish : List Cb) :
    FinishEffect × List Cb × List Cb :=
  (finishHandler streams, onceFinish, [])

/-- **C5.** When the input side completes after `end()`: with `n > 0` the
close signal goes to `stages[0]`, with `n = 0` the composite's own readable
side is ended directly, and a callback passed to `end` is invoked exactly
once when the handshake settles, with no one-shot listener left. -/
theorem C5_finish_close (s : Stage) (rest : List Stage) (c : Cb)
    (streams : List Stage) :
    fireFinish (s :: rest) (endRegister (some c) []) =
      (FinishEffect.closeFirst s, [c], []) ∧
    fireFinish [] (endRegister (some c) []) = (FinishEffect.pushEOF, [c], []) ∧
    (fireFinish streams (endRegister (some c) [])).2.1.count c = 1 ∧
    (fireFinish streams (endRegister (some c) [])).2.2 = [] := by
  refine ⟨rfl, rfl, ?_, rfl⟩
  simp [fireFinish, endRegister]

/-! ### The event rebinder: `bind`, `unbind`, `unbindAll` -/

/-- An event name. -/
abbrev Ev := String

/-- A forwarding handler's identity (JS function identity), numbered by
creation order. -/
abbrev Handler := Nat

/-- Per-stage event state: the listeners attached to the stage (in
registration order, as `(event, handler)` pairs) and the stage's
`_pipageListeners` object — `none` when unset, otherwise an assoc list from
event name to the stored forwarding handler (or `none` for a nulled entry). -/
structure StageEvt where
  listeners : List (Ev × Handler)
  registry : Option (List (Ev × Option Handler))
deriving DecidableEq

/-- Read `obj[event]` from a `_pipageListeners` assoc list: `none` when the
key is absent, `some v` for a present entry. -/
def regLookup (m : List (Ev × Option Handler)) (e : Ev) : Option (Option Handler) :=
  (m.find? (fun p => p.1 == e)).map (fun p => p.2)

/-- Write `obj[event] = v` on a `_pipageListeners` assoc list: update the
entry in place if present, else append it. -/
def regSet : List (Ev × Option Handler) → Ev → Option Handler →
    List (Ev × Option Handler)
  | [], e, v => [(e, v)]
  | p :: rest, e, v => if p.1 == e then (e, v) :: rest else p :: regSet rest e v

/-- One iteration of `bind`'s `events.forEach` (pipeline.js lines 204–218)
over the running `(registry, listeners, next handler id)` state: skip the
event if it already has a non-null handler, otherwise create a fresh
forwarding handler, store it, and attach it to the stage. -/
def bindStep (acc : List (Ev × Option Handler) × List (Ev × Handler) × Nat)
    (e : Ev) : List (Ev × Option Handler) × List (Ev × Handler) × Nat :=
  match regLookup acc.1 e with
  | some (some _) => acc
  | _ => (regSet acc.1 e (some acc.2.2), acc.2.1 ++ [(e, acc.2.2)], acc.2.2 + 1)

/-- `Pipeline#bind(stream, events)` (pipeline.js lines 193–222) as it acts
on one stage: materialize `_pipageListeners` if unset, then process each
event.  `c` is the next fresh handler id; the updated id is returned. -/
def bind (st : StageEvt) (events : List Ev) (c : Nat) : StageEvt × Nat :=
  let r := List.foldl bindStep (st.registry.getD [], st.listeners, c) events
  (⟨r.2.1, some r.1⟩, r.2.2)

/-- One iteration of `unbind`'s `events.forEach` (pipeline.js lines
239–243): skip events with no non-null handler, otherwise detach the stored
handler from the stage and null the registry entry. -/
def unbindStep (acc : List (Ev × Option Handler) × List (Ev × Handler))
    (e : Ev) : List (Ev × Option Handler) × List (Ev × Handler) :=
  match regLookup acc.1 e with
  | some (some h) => (regSet acc.1 e none, eraseOne acc.2 (e, h))
  | _ => acc

/-- `Pipeline#unbind(stream, events)` (pipeline.js lines 231–247): a no-op
when `_pipageListeners` is unset. -/
def unbind (st : StageEvt) (events : List Ev) : StageEvt :=
  match st.registry with
  | none => st
  | some m =>
    let r := List.foldl unbindStep (m, st.listeners) events
    ⟨r.2, some r.1⟩

/-- `Pipeline#unbindAll(stream)` (pipeline.js lines 255–264): unbind every
key of `_pipageListeners`, then clear the object itself. -/
def unbindAll (st : StageEvt) : StageEvt :=
  match st.registry with
  | none => st
  | some m => { unbind st (m.map (fun p => p.1)) with registry := none }

/-- The `(event, handler)` pairs stored (non-null) in a registry, in order. -/
def entriesOf (m : List (Ev × Option Handler)) : List (Ev × Handler) :=
  m.filterMap (fun p => p.2.map (fun h => (p.1, h)))

/-! ### Helper lemmas about the event rebinder -/

lemma regLookup_cons (p : Ev × Option Handler) (m : List (Ev × Option Handler))
    (e : Ev) :
    regLookup (p :: m) e = if p.1 == e then some p.2 else regLookup m e := by
  by_cases hbe : p.1 == e <;> simp [regLookup, List.find?_cons, hbe]

lemma regLookup_none_keys (m : List (Ev × Option Handler)) (e : Ev)
    (h : regLookup m e = none) : ∀ p ∈ m, p.1 ≠ e := by
  intro p hp hpe
  induction m with
  | nil => exact absurd hp (List.not_mem_nil p)
  | cons q m ih =>
    rw [regLookup_cons] at h
    by_cases hbe : q.1 == e
    · rw [if_pos hbe] at h
      exact Option.noConfusion h
    · rw [if_neg hbe] at h
      rcases List.mem_cons.mp hp with hq | hm
      · rw [hq] at hpe
        exact hbe (by rw [hpe]; exact beq_self_eq_true e)
      · exact ih h hm

lemma regSet_append_new (m : List (Ev × Option Handler)) (e : Ev)
    (v : Option Handler) (h : regLookup m e = none) :
    regSet m e v = m ++ [(e, v)] := by
  induction m with
  | nil => rfl
  | cons q m ih =>
    rw [regLookup_cons] at h
    by_cases hbe : q.1 == e
    · rw [if_pos hbe] at h
      exact Option.noConfusion h
    · rw [if_neg hbe] at h
      show (if q.1 == e then (e, v) :: m else q :: regSet m e v) = q :: m ++ [(e, v)]
      rw [if_neg hbe, ih h]
      rfl

lemma regLookup_regSet_self (m : List (Ev × Option Handler)) (e : Ev)
    (v : Option Handler) : regLookup (regSet m e v) e = some v := by
  induction m with
  | nil =>
    show regLookup [(e, v)] e = some v
    rw [regLookup_cons, if_pos (beq_self_eq_true e)]
  | cons q m ih =>
    show regLookup (if q.1 == e then (e, v) :: m else q :: regSet m e v) e = some v
    by_cases hbe : q.1 == e
    · rw [if_pos hbe, regLookup_cons, if_pos (beq_self_eq_true e)]
    · rw [if_neg hbe, regLookup_cons, if_neg hbe]
      exact ih

lemma regLookup_append_mid (pre rest : List (Ev × Option Handler)) (e : Ev)
    (w : Option Handler) (hpre : ∀ p ∈ pre, p.1 ≠ e) :
    regLookup (pre ++ (e, w) :: rest) e = some w := by
  induction pre with
  | nil =>
    rw [List.nil_append, regLookup_cons, if_pos (beq_self_eq_true e)]
  | cons q pre ih =>
    have hq : ¬ (q.1 == e) := by
      intro hbe
      exact hpre q (List.mem_cons_self q pre) (beq_iff_eq.mp hbe)
    rw [List.cons_append, regLookup_cons, if_neg hq]
    exact ih (fun p hp => hpre p (List.mem_cons_of_mem q hp))

lemma regSet_append_mid (pre rest : List (Ev × Option Handler)) (e : Ev)
    (w v : Option Handler) (hpre : ∀ p ∈ pre, p.1 ≠ e) :
    regSet (pre ++ (e, w) :: rest) e v = pre ++ (e, v) :: rest := by
  induction pre with
  | nil =>
    show (if e == e then (e, v) :: rest else _) = (e, v) :: rest
    rw [if_pos (beq_self_eq_true e)]
  | cons q pre ih =>
    have hq : ¬ (q.1 == e) := by
      intro hbe
      exact hpre q (List.mem_cons_self q pre) (beq_iff_eq.mp hbe)
    show (if q.1 == e then _ else q :: regSet (pre ++ (e, w) :: rest) e v) = _
    rw [if_neg hq, ih (fun p hp => hpre p (List.mem_cons_of_mem q hp))]
    rfl

lemma eraseOne_append_right {α : Type} [DecidableEq α] (a : α) (l₁ l₂ : List α)
    (h : a ∉ l₁) : eraseOne (l₁ ++ l₂) a = l₁ ++ eraseOne l₂ a :=
  List.erase_append_right l₂ h

lemma eraseOne_cons_head {α : Type} [DecidableEq α] (a : α) (l : List α) :
    eraseOne (a :: l) a = l :=
  List.erase_cons_head a l

/-- Invariant of `bind`'s fold state relative to the stage's original
listener list `l0` and the initial fresh handler id `c0`. -/
structure GoodReg (l0 : List (Ev × Handler)) (c0 : Nat)
    (m : List (Ev × Option Handler)) (ls : List (Ev × Handler)) (c : Nat) :
    Prop where
  nodupKeys : (m.map (fun p => p.1)).Nodup
  allSome : ∀ p ∈ m, ∃ h, p.2 = some h ∧ c0 ≤ h ∧ h < c
  lsEq : ls = l0 ++ entriesOf m
  cLe : c0 ≤ c

lemma goodReg_lookup_ne_some_none (l0 : List (Ev × Handler)) (c0 : Nat)
    (m : List (Ev × Option Handler)) (ls : List (Ev × Handler)) (c : Nat)
    (hg : GoodReg l0 c0 m ls c) (e : Ev) : regLookup m e ≠ some none := by
  intro hcase
  obtain ⟨p, hfind⟩ : ∃ p, m.find? (fun q => q.1 == e) = some p ∧ p.2 = none := by
    unfold regLookup at hcase
    cases hf : m.find? (fun q => q.1 == e) with
    | none => rw [hf] at hcase; exact Option.noConfusion hcase
    | some p =>
      rw [hf] at hcase
      exact ⟨p, rfl, by simpa using hcase⟩
  obtain ⟨h, hsome, _⟩ := hg.allSome p (List.mem_of_find?_eq_some hfind.1)
  rw [hfind.2] at hsome
  exact Option.noConfusion hsome

lemma bindFold_good (l0 : List (Ev × Handler)) (c0 : Nat) :
    ∀ (events : List Ev) (m : List (Ev × Option Handler))
      (ls : List (Ev × Handler)) (c : Nat),
      GoodReg l0 c0 m ls c →
      GoodReg l0 c0 (List.foldl bindStep (m, ls, c) events).1
        (List.foldl bindStep (m, ls, c) events).2.1
        (List.foldl bindStep (m, ls, c) events).2.2
  | [], _, _, _, hg => hg
  | e :: events, m, ls, c, hg => by
    rw [List.foldl_cons]
    cases hcase : regLookup m e with
    | none =>
      have hstep : bindStep (m, ls, c) e =
          (regSet m e (some c), ls ++ [(e, c)], c + 1) := by
        simp [bindStep, hcase]
      rw [hstep]
      have hkeys := regLookup_none_keys m e hcase
      have hset : regSet m e (some c) = m ++ [(e, some c)] :=
        regSet_append_new m e (some c) hcase
      apply bindFold_good l0 c0 events
      show GoodReg l0 c0 (regSet m e (some c)) (ls ++ [(e, c)]) (c + 1)
      refine ⟨?_, ?_, ?_, ?_⟩
      · rw [hset]
        simp only [List.map_append, List.map_cons, List.map_nil]
        rw [List.nodup_append]
        refine ⟨hg.nodupKeys, List.nodup_singleton e, ?_⟩
        intro x hx hx1
        have hxe : x = e := by simpa using hx1
        obtain ⟨p, hp, hpe⟩ := List.mem_map.mp hx
        exact hkeys p hp (by rw [hpe, hxe])
      · rw [hset]
        intro p hp
        rcases List.mem_append.mp hp with hm | hnew
        · obtain ⟨h, h1, h2, h3⟩ := hg.allSome p hm
          exact ⟨h, h1, h2, Nat.lt_succ_of_lt h3⟩
        · have hpe : p = (e, some c) := by simpa using hnew
          exact ⟨c, by rw [hpe], hg.cLe, Nat.lt_succ_self c⟩
      · rw [hset, hg.lsEq]
        unfold entriesOf
        rw [List.filterMap_append]
        simp [List.append_assoc]
      · exact Nat.le_succ_of_le hg.cLe
    | some oh =>
      cases oh with
      | none =>
        exact absurd hcase
          (goodReg_lookup_ne_some_none l0 c0 m ls c hg e)
      | some h =>
        have hstep : bindStep (m, ls, c) e = (m, ls, c) := by
          simp [bindStep, hcase]
        rw [hstep]
        exact bindFold_good l0 c0 events m ls c hg

lemma unbindFold_restore (l0 : List (Ev × Handler)) (c0 : Nat)
    (hfresh : ∀ p ∈ l0, p.2 < c0) :
    ∀ (rest pre : List (Ev × Option Handler)),
      (((pre ++ rest).map (fun p => p.1)).Nodup) →
      (∀ p ∈ rest, ∃ h, p.2 = some h ∧ c0 ≤ h) →
      (List.foldl unbindStep (pre ++ rest, l0 ++ entriesOf rest)
        (rest.map (fun p => p.1))).2 = l0
  | [], pre, _, _ => by simp [entriesOf]
  | (e, w) :: rest, pre, hnodup, hsome => by
    obtain ⟨h, hw, hch⟩ := hsome (e, w) (List.mem_cons_self _ _)
    subst hw
    have hkeys : ((pre ++ (e, some h) :: rest).map (fun p => p.1)) =
        pre.map (fun p => p.1) ++ e :: rest.map (fun p => p.1) := by
      simp
    have hpre : ∀ p ∈ pre, p.1 ≠ e := by
      intro p hp hpe
      rw [hkeys, List.nodup_append] at hnodup
      exact hnodup.2.2 (List.mem_map.mpr ⟨p, hp, rfl⟩)
        (by rw [hpe]; exact List.mem_cons_self e _)
    have hlook : regLookup (pre ++ (e, some h) :: rest) e = some (some h) :=
      regLookup_append_mid pre rest e (some h) hpre
    have hent : entriesOf ((e, some h) :: rest) = (e, h) :: entriesOf rest := by
      simp [entriesOf]
    rw [List.map_cons, List.foldl_cons]
    have hno : (e, h) ∉ l0 := by
      intro hmem
      have hlt : h < c0 := hfresh (e, h) hmem
      exact absurd hlt (Nat.not_lt.mpr hch)
    have hstep : unbindStep (pre ++ (e, some h) :: rest, l0 ++ entriesOf ((e, some h) :: rest)) e =
        (pre ++ (e, none) :: rest, l0 ++ entriesOf rest) := by
      simp only [unbindStep, hlook]
      rw [regSet_append_mid pre rest e (some h) none hpre, hent]
      rw [eraseOne_append_right (e, h) l0 ((e, h) :: entriesOf rest) hno,
        eraseOne_cons_head]
    rw [hstep]
    have hassoc : pre ++ (e, none) :: rest = (pre ++ [(e, none)]) ++ rest := by
      simp
    rw [hassoc]
    apply unbindFold_restore l0 c0 hfresh rest (pre ++ [(e, none)])
    · simpa using hnodup
    · exact fun p hp => hsome p (List.mem_cons_of_mem _ hp)

lemma bind_single_idem (st : StageEvt) (e : Ev) (c : Nat) :
    bind (bind st [e] c).1 [e] (bind st [e] c).2 = bind st [e] c := by
  cases hcase : regLookup (st.registry.getD []) e with
  | none =>
    have h1 : bind st [e] c =
        (⟨st.listeners ++ [(e, c)],
          some (regSet (st.registry.getD []) e (some c))⟩, c + 1) := by
      simp [bind, bindStep, hcase]
    rw [h1]
    have h2 : regLookup (regSet (st.registry.getD []) e (some c)) e =
        some (some c) := regLookup_regSet_self _ e (some c)
    simp [bind, bindStep, h2]
  | some oh =>
    cases oh with
    | none =>
      have h1 : bind st [e] c =
          (⟨st.listeners ++ [(e, c)],
            some (regSet (st.registry.getD []) e (some c))⟩, c + 1) := by
        simp [bind, bindStep, hcase]
      rw [h1]
      have h2 : regLookup (regSet (st.registry.getD []) e (some c)) e =
          some (some c) := regLookup_regSet_self _ e (some c)
      simp [bind, bindStep, h2]
    | some h =>
      have h1 : bind st [e] c = (⟨st.listeners, some (st.registry.getD [])⟩, c) := by
        simp [bind, bindStep, hcase]
      rw [h1]
      simp [bind, bindStep, hcase]

/-- **C8.** `bind` is idempotent per event name — binding the same name a
second time changes nothing, and a single bind on a stage with no registry
stores exactly one forwarding handler — and `unbindAll` detaches every
forwarding handler currently registered and clears the registry entirely
(back to unset, not merely emptied), restoring the stage's original
listeners. -/
theorem C8_bind_idempotent_unbindAll (st : StageEvt) (e : Ev) (c : Nat)
    (l0 : List (Ev × Handler)) (events : List Ev) (c0 : Nat)
    (hfresh : ∀ p ∈ l0, p.2 < c0) :
    bind (bind st [e] c).1 [e] (bind st [e] c).2 = bind st [e] c ∧
    bind ⟨l0, none⟩ [e] c0 = (⟨l0 ++ [(e, c0)], some [(e, some c0)]⟩, c0 + 1) ∧
    unbindAll (bind ⟨l0, none⟩ events c0).1 = ⟨l0, none⟩ := by
  refine ⟨bind_single_idem st e c, ?_, ?_⟩
  · simp [bind, bindStep, regLookup, regSet]
  · have hg0 : GoodReg l0 c0 [] l0 c0 := by
      refine ⟨by simp, by simp, by simp [entriesOf], le_refl c0⟩
    have hg := bindFold_good l0 c0 events [] l0 c0 hg0
    have hbind : (bind ⟨l0, none⟩ events c0).1 =
        ⟨(List.foldl bindStep ([], l0, c0) events).2.1,
         some (List.foldl bindStep ([], l0, c0) events).1⟩ := rfl
    rw [hbind]
    set F := List.foldl bindStep ([], l0, c0) events with hF
    have hls : F.2.1 = l0 ++ entriesOf F.1 := hg.lsEq
    have hrestore := unbindFold_restore l0 c0 hfresh F.1 []
      (by simpa using hg.nodupKeys)
      (fun p hp => by
        obtain ⟨h, h1, h2, _⟩ := hg.allSome p hp
        exact ⟨h, h1, h2⟩)
    have hrestore2 : (List.foldl unbindStep (F.1, l0 ++ entriesOf F.1)
        (F.1.map (fun p => p.1))).2 = l0 := by
      simpa using hrestore
    have hred : unbindAll ⟨F.2.1, some F.1⟩ =
        ⟨(List.foldl unbindStep (F.1, F.2.1) (F.1.map (fun p => p.1))).2,
          none⟩ := rfl
    rw [hred, hls, hrestore2]

/-- Witness for C8: double-binding one event on a stage that already has an
unrelated listener, then binding two events and unbinding all of them. -/
theorem C8_bind_idempotent_unbindAll_witness :
    bind (bind (⟨[("x", 0)], none⟩ : StageEvt) ["custom"] 1).1 ["custom"]
        (bind (⟨[("x", 0)], none⟩ : StageEvt) ["custom"] 1).2 =
      bind (⟨[("x", 0)], none⟩ : StageEvt) ["custom"] 1 ∧
    bind (⟨[("x", 0)], none⟩ : StageEvt) ["custom"] 1 =
      (⟨[("x", 0), ("custom", 1)], some [("custom", some 1)]⟩, 2) ∧
    unbindAll (bind (⟨[("x", 0)], none⟩ : StageEvt) ["custom", "other"] 1).1 =
      ⟨[("x", 0)], none⟩ :=
  C8_bind_idempotent_unbindAll ⟨[("x", 0)], none⟩ "custom" 1 [("x", 0)]
    ["custom", "other"] 1 (by decide)

end Pipage
